import Mathlib

/-!
Shallow embedding of the ECDSA core of the Flow Go SDK
(`crypto/internal/crypto/ecdsa.go`) and proofs about its key generation,
raw encoding and decoding, signing and verification logic.

Bytes are modelled as `Fin 256`, byte strings as `List Byte` in the same
order as the Go slices. Go's `(value, error)` returns are modelled by the
`Outcome` type below, with a distinct constructor for runtime panics
(out-of-range slice indexing).
-/

set_option maxRecDepth 8000

namespace FlowECDSA

/-- A byte, as stored in a Go byte slice. -/
def Byte := Fin 256

instance : DecidableEq Byte := inferInstanceAs (DecidableEq (Fin 256))

instance : OfNat Byte n := ⟨⟨n % 256, Nat.mod_lt _ (by decide)⟩⟩

/-- Errors returned by the ECDSA code, one constructor per `errors.New` /
`fmt.Errorf` site in the source. -/
inductive CryptoError where
  /-- "Sign requires a Hasher" -/
  | signRequiresHasher
  /-- "Verify requires a Hasher" -/
  | verifyRequiresHasher
  /-- "seed should be at least %d bytes" -/
  | insufficientSeedLength (minLen : Nat)
  /-- "raw private key is not valid" -/
  | invalidRawPrivateKey
  /-- "raw public key is not valid" -/
  | invalidRawPublicKey
  /-- "ECDSA Sign has failed" (randomness or nonce failure inside the library) -/
  | signingFailed
  deriving DecidableEq

/-- Result of a Go function returning `(value, error)`; `panic` models a Go
runtime panic such as an out-of-range slice index. -/
inductive Outcome (α : Type) where
  | ok : α → Outcome α
  | err : CryptoError → Outcome α
  | panic : Outcome α
  deriving DecidableEq

/-- `bitsToBytes` from ecdsa.go: `(bits + 7) >> 3`. -/
def bitsToBytes (bits : Nat) : Nat := (bits + 7) >>> 3

/-- Fuel-driven helper for the bit length of a natural number. -/
def bitLenAux : Nat → Nat → Nat
  | 0, _ => 0
  | fuel + 1, n => if n = 0 then 0 else bitLenAux fuel (n / 2) + 1

/-- Bit length of a natural number, as Go's `big.Int.BitLen`: the fuel `n`
always dominates the number of binary digits of `n`. -/
def bitLen (n : Nat) : Nat := bitLenAux n n

/-- Big-endian interpretation of a byte string as a natural number, as Go's
`big.Int.SetBytes`. -/
def bytesToNat (bs : List Byte) : Nat :=
  bs.foldl (fun acc b => acc * 256 + b.val) 0

/-- Fuel-driven helper extracting the minimal big-endian byte string of a
natural number. -/
def natBytesAux : Nat → Nat → List Byte
  | 0, _ => []
  | fuel + 1, n =>
    if n = 0 then []
    else natBytesAux fuel (n / 256) ++ [⟨n % 256, Nat.mod_lt _ (by decide)⟩]

/-- Minimal big-endian byte string of a natural number, as Go's
`big.Int.Bytes` (the empty string for zero). -/
def natBytes (n : Nat) : List Byte := natBytesAux n n

/-- Go's `copy(dst[off:], src)` on a fresh slice: overwrites `dst` starting at
`off` with as much of `src` as fits, leaving the rest unchanged. -/
def copyInto (dst : List Byte) (off : Nat) (src : List Byte) : List Byte :=
  dst.take off ++ src.take (dst.length - off) ++ dst.drop (off + src.length)

/-- Short Weierstrass curve parameters, as Go's `elliptic.CurveParams`:
field prime `p`, subgroup order `n`, coefficients of
`y^2 = x^3 + a*x + b`, and the generator `(gx, gy)`. -/
structure Curve where
  p : Nat
  n : Nat
  a : Nat
  b : Nat
  gx : Nat
  gy : Nat
  deriving DecidableEq

/-- An affine curve point; `none` is the point at infinity. -/
def Point := Option (Nat × Nat)

instance : DecidableEq Point := inferInstanceAs (DecidableEq (Option (Nat × Nat)))

/-- Modular inverse via the extended Euclidean algorithm, as used by
`math/big.Int.ModInverse` inside the elliptic library. -/
def invMod (a n : Nat) : Nat := ((Nat.gcdA a n) % (n : Int)).toNat

/-- Affine point doubling on a short Weierstrass curve, the mathematical
operation behind `elliptic.Curve.Double`. -/
def pointDouble (c : Curve) : Point → Point
  | none => none
  | some (x, y) =>
    if y % c.p = 0 then none
    else
      let l : Int := (((3 * x * x + c.a : Nat) : Int) * invMod ((2 * y) % c.p) c.p) % c.p
      let x3 : Int := (l * l - 2 * (x : Int)) % c.p
      let y3 : Int := (l * ((x : Int) - x3) - (y : Int)) % c.p
      some (x3.toNat, y3.toNat)

/-- Affine point addition on a short Weierstrass curve, the mathematical
operation behind `elliptic.Curve.Add`. -/
def pointAdd (c : Curve) (P Q : Point) : Point :=
  match P, Q with
  | none, q => q
  | p, none => p
  | some (x1, y1), some (x2, y2) =>
    if x1 % c.p = x2 % c.p then
      if (y1 + y2) % c.p = 0 then none
      else pointDouble c (some (x1, y1))
    else
      let l : Int := (((y2 : Int) - (y1 : Int)) *
        invMod ((((x2 : Int) - (x1 : Int)) % c.p).toNat) c.p) % c.p
      let x3 : Int := (l * l - (x1 : Int) - (x2 : Int)) % c.p
      let y3 : Int := (l * ((x1 : Int) - x3) - (y1 : Int)) % c.p
      some (x3.toNat, y3.toNat)

/-- Fuel-driven binary double-and-add scalar multiplication. -/
def scalarMultAux (c : Curve) : Nat → Nat → Point → Point
  | 0, _, _ => none
  | fuel + 1, k, pt =>
    if k = 0 then none
    else
      let rest := scalarMultAux c fuel (k / 2) (pointDouble c pt)
      if k % 2 = 1 then pointAdd c pt rest else rest

/-- Scalar multiplication `k * pt`; the fuel `k + 1` dominates the number of
binary digits of `k`, so the recursion always runs to completion. -/
def scalarMult (c : Curve) (k : Nat) (pt : Point) : Point :=
  scalarMultAux c (k + 1) k pt

/-- Conversion of a point to the affine coordinate pair stored in Go's
`ecdsa.PublicKey`; the library represents the point at infinity as `(0, 0)`. -/
def pointToAffine : Point → Nat × Nat
  | none => (0, 0)
  | some xy => xy

/-- Go's `elliptic.Curve.ScalarBaseMult`: interprets the argument bytes as a
big-endian scalar and multiplies the generator by it. -/
def scalarBaseMult (c : Curve) (kBytes : List Byte) : Nat × Nat :=
  pointToAffine (scalarMult c (bytesToNat kBytes) (some (c.gx, c.gy)))

/-- NIST P-256 parameters, as returned by `elliptic.P256().Params()`. -/
def p256Curve : Curve where
  p := 0xffffffff00000001000000000000000000000000ffffffffffffffffffffffff
  n := 0xffffffff00000000ffffffffffffffffbce6faada7179e84f3b9cac2fc632551
  a := 0xffffffff00000001000000000000000000000000fffffffffffffffffffffffc
  b := 0x5ac635d8aa3a93e7b3ebbd55769886bc651d06b0cc53b0f63bce3c3e27d2604b
  gx := 0x6b17d1f2e12c4247f8bce6e563a440f277037d812deb33a0f4a13945d898c296
  gy := 0x4fe342e2fe1a7f9b8ee7eb4a7c0f9e162bce33576b315ececbb6406837bf51f5

/-- SECG secp256k1 parameters, as returned by `btcec.S256()`. -/
def secp256k1Curve : Curve where
  p := 0xfffffffffffffffffffffffffffffffffffffffffffffffffffffffefffffc2f
  n := 0xfffffffffffffffffffffffffffffffebaaedce6af48a03bbfd25e8cd0364141
  a := 0
  b := 7
  gx := 0x79be667ef9dcbbac55a06295ce870b07029bfcdb2dce28d959f2815b16f81798
  gy := 0x483ada7726a3c4655da4fbfc0e1108a8fd17b448a68554199c47d08ffb10d4b8

/-- Signing algorithm identifiers handled by ecdsa.go. -/
inductive SigningAlgorithm where
  | ECDSAP256
  | ECDSASecp256k1
  deriving DecidableEq

/-- `ecdsaAlgo` from ecdsa.go: a curve together with its algorithm tag. -/
structure EcdsaAlgo where
  curve : Curve
  algo : SigningAlgorithm
  deriving DecidableEq

/-- The singleton returned by `newECDSAP256`. -/
def p256Instance : EcdsaAlgo where
  curve := p256Curve
  algo := .ECDSAP256

/-- The singleton returned by `newECDSASecp256k1`. -/
def secp256k1Instance : EcdsaAlgo where
  curve := secp256k1Curve
  algo := .ECDSASecp256k1

/-- Go's `ecdsa.PublicKey`: a curve reference and the affine coordinates. -/
structure GoPublicKey where
  curve : Curve
  x : Nat
  y : Nat
  deriving DecidableEq

/-- Go's `ecdsa.PrivateKey`: the embedded public key and the scalar `D`. -/
structure GoPrivateKey where
  pub : GoPublicKey
  d : Nat
  deriving DecidableEq

/-- `PrKeyECDSA` from ecdsa.go. -/
structure PrKeyECDSA where
  alg : EcdsaAlgo
  goPrKey : GoPrivateKey
  deriving DecidableEq

/-- `PubKeyECDSA` from ecdsa.go. -/
structure PubKeyECDSA where
  alg : EcdsaAlgo
  goPubKey : GoPublicKey
  deriving DecidableEq

/-- A message hasher, the external `hash.Hasher` capability; Go's nil hasher
is modelled as `Option.none` at the call sites. -/
structure Hasher where
  computeHash : List Byte → List Byte

/-- Modelled from the spec: the constant `securityBits` is declared outside
this file in the repository; the spec fixes the extra seed entropy at 128
bits ("16 bytes = 128 bits of extra entropy for bias reduction"). -/
def securityBits : Nat := 128

/-- `hashToInt` of crypto/ecdsa: truncate the digest to the order's byte
length and drop excess low bits so the result has at most `BitLen n` bits. -/
def hashToInt (c : Curve) (h : List Byte) : Nat :=
  let orderBits := bitLen c.n
  let orderBytes := (orderBits + 7) / 8
  let h1 := if orderBytes < h.length then h.take orderBytes else h
  bytesToNat h1 >>> (h1.length * 8 - orderBits)

/-- Go's `crypto/ecdsa.Verify`: rejects `r` or `s` outside `[1, n-1]` with a
plain `false`, then checks the ECDSA verification equation. -/
def goecdsaVerify (pub : GoPublicKey) (h : List Byte) (r s : Nat) : Bool :=
  let c := pub.curve
  if r = 0 ∨ s = 0 ∨ c.n ≤ r ∨ c.n ≤ s then false
  else
    let e := hashToInt c h
    let w := invMod s c.n
    let u1 := (e * w) % c.n
    let u2 := (r * w) % c.n
    match pointAdd c (scalarMult c u1 (some (c.gx, c.gy)))
        (scalarMult c u2 (some (pub.x, pub.y))) with
    | none => false
    | some (x, _) => decide (x % c.n = r)

/-- Go's `crypto/ecdsa.Sign`, with the random nonce draw made an explicit
argument; a zero `r` or `s` (which the library would retry) and a degenerate
nonce surface as `signingFailed`. -/
def goecdsaSign (c : Curve) (d : Nat) (h : List Byte) (nonce : Nat) :
    Outcome (Nat × Nat) :=
  let k := nonce % (c.n - 1) + 1
  match scalarMult c k (some (c.gx, c.gy)) with
  | none => .err .signingFailed
  | some (x, _) =>
    let r := x % c.n
    if r = 0 then .err .signingFailed
    else
      let e := hashToInt c h
      let s := (invMod k c.n * (e + r * d)) % c.n
      if s = 0 then .err .signingFailed else .ok (r, s)

/-- `PrKeyECDSA.signHash`: sign the digest and emit `bytes(r)||bytes(s)`,
each half left-zero-padded to the curve order byte length. -/
def PrKeyECDSA.signHash (sk : PrKeyECDSA) (h : List Byte) (nonce : Nat) :
    Outcome (List Byte) :=
  match goecdsaSign sk.goPrKey.pub.curve sk.goPrKey.d h nonce with
  | .ok (r, s) =>
    let rBytes := natBytes r
    let sBytes := natBytes s
    let nl := bitsToBytes (bitLen sk.alg.curve.n)
    if rBytes.length ≤ nl ∧ sBytes.length ≤ 2 * nl then
      .ok (copyInto (copyInto (List.replicate (2 * nl) 0) (nl - rBytes.length) rBytes)
        (2 * nl - sBytes.length) sBytes)
    else .panic
  | .err e => .err e
  | .panic => .panic

/-- `PrKeyECDSA.Sign`: a nil hasher is refused, otherwise the message is
digested and `signHash` is called. -/
def PrKeyECDSA.Sign (sk : PrKeyECDSA) (data : List Byte) (alg : Option Hasher)
    (nonce : Nat) : Outcome (List Byte) :=
  match alg with
  | none => .err .signRequiresHasher
  | some hasher => sk.signHash (hasher.computeHash data) nonce

/-- `PubKeyECDSA.verifyHash`: splits the signature at the curve order byte
length with `sig[:Nlen]` and `sig[Nlen:]`; a signature shorter than `Nlen`
makes the slice expression panic. -/
def PubKeyECDSA.verifyHash (pk : PubKeyECDSA) (sig : List Byte) (h : List Byte) :
    Outcome Bool :=
  let nl := bitsToBytes (bitLen pk.alg.curve.n)
  if sig.length < nl then .panic
  else .ok (goecdsaVerify pk.goPubKey h (bytesToNat (sig.take nl))
    (bytesToNat (sig.drop nl)))

/-- `PubKeyECDSA.Verify`: a nil hasher is refused, otherwise the message is
digested and `verifyHash` is called. -/
def PubKeyECDSA.Verify (pk : PubKeyECDSA) (sig : List Byte) (data : List Byte)
    (alg : Option Hasher) : Outcome Bool :=
  match alg with
  | none => .err .verifyRequiresHasher
  | some hasher => pk.verifyHash sig (hasher.computeHash data)

/-- `goecdsaGenerateKey`: reduce the big-endian seed into `[1, n-1]` and
derive the public point by scalar multiplication of the generator. -/
def goecdsaGenerateKey (c : Curve) (seed : List Byte) : GoPrivateKey :=
  let k := bytesToNat seed
  let n1 := c.n - 1
  let k1 := k % n1 + 1
  let xy := scalarBaseMult c (natBytes k1)
  { pub := { curve := c, x := xy.1, y := xy.2 }, d := k1 }

/-- `ecdsaAlgo.generatePrivateKey`: refuse seeds shorter than
`Nlen + securityBits/8` bytes, otherwise derive the key deterministically. -/
def EcdsaAlgo.generatePrivateKey (a : EcdsaAlgo) (seed : List Byte) :
    Outcome PrKeyECDSA :=
  let nl := bitsToBytes (bitLen a.curve.n)
  let minSeedLen := nl + securityBits / 8
  if seed.length < minSeedLen then .err (.insufficientSeedLength minSeedLen)
  else .ok { alg := a, goPrKey := goecdsaGenerateKey a.curve seed }

/-- `ecdsaAlgo.rawDecodePrivateKey`: the input must be exactly `Nlen` bytes;
the scalar is read big-endian and the public point rederived from the raw
bytes, with no range check on the scalar. -/
def EcdsaAlgo.rawDecodePrivateKey (a : EcdsaAlgo) (der : List Byte) :
    Outcome PrKeyECDSA :=
  let nl := bitsToBytes (bitLen a.curve.n)
  if der.length ≠ nl then .err .invalidRawPrivateKey
  else
    let d := bytesToNat der
    let xy := scalarBaseMult a.curve der
    .ok { alg := a,
          goPrKey := { pub := { curve := a.curve, x := xy.1, y := xy.2 }, d := d } }

/-- `ecdsaAlgo.decodePrivateKey` forwards to the raw decoder. -/
def EcdsaAlgo.decodePrivateKey (a : EcdsaAlgo) (der : List Byte) :
    Outcome PrKeyECDSA :=
  a.rawDecodePrivateKey der

/-- `ecdsaAlgo.rawDecodePublicKey`: the input must be exactly `2 * Plen`
bytes; the two coordinates are read big-endian, with no on-curve check. -/
def EcdsaAlgo.rawDecodePublicKey (a : EcdsaAlgo) (der : List Byte) :
    Outcome PubKeyECDSA :=
  let pl := bitsToBytes (bitLen a.curve.p)
  if der.length ≠ 2 * pl then .err .invalidRawPublicKey
  else
    .ok { alg := a,
          goPubKey := { curve := a.curve, x := bytesToNat (der.take pl),
                        y := bytesToNat (der.drop pl) } }

/-- `ecdsaAlgo.decodePublicKey` forwards to the raw decoder. -/
def EcdsaAlgo.decodePublicKey (a : EcdsaAlgo) (der : List Byte) :
    Outcome PubKeyECDSA :=
  a.rawDecodePublicKey der

/-- `PrKeyECDSA.Size`: the curve order byte length. -/
def PrKeyECDSA.Size (sk : PrKeyECDSA) : Nat :=
  bitsToBytes (bitLen sk.alg.curve.n)

/-- `PrKeyECDSA.PublicKey`: the public key carried inside the private key. -/
def PrKeyECDSA.PublicKey (sk : PrKeyECDSA) : PubKeyECDSA :=
  { alg := sk.alg, goPubKey := sk.goPrKey.pub }

/-- `PrKeyECDSA.rawEncode`: big-endian scalar bytes left-zero-padded to
`Nlen`; a scalar wider than `Nlen` bytes would make the Go copy target
`skEncoded[Nlen-len:]` panic on a negative index. -/
def PrKeyECDSA.rawEncode (sk : PrKeyECDSA) : Outcome (List Byte) :=
  let skBytes := natBytes sk.goPrKey.d
  let nl := bitsToBytes (bitLen sk.alg.curve.n)
  if skBytes.length ≤ nl then
    .ok (copyInto (List.replicate nl 0) (nl - skBytes.length) skBytes)
  else .panic

/-- `PrKeyECDSA.Encode` forwards to `rawEncode`. -/
def PrKeyECDSA.Encode (sk : PrKeyECDSA) : Outcome (List Byte) :=
  sk.rawEncode

/-- `PrKeyECDSA.Equals`: same curve and equal scalar. -/
def PrKeyECDSA.Equals (sk other : PrKeyECDSA) : Bool :=
  if sk.alg.curve = other.alg.curve then decide (sk.goPrKey.d = other.goPrKey.d)
  else false

/-- `PubKeyECDSA.Size`: twice the field prime byte length, read from the
curve stored in the Go public key. -/
def PubKeyECDSA.Size (pk : PubKeyECDSA) : Nat :=
  2 * bitsToBytes (bitLen pk.goPubKey.curve.p)

/-- `PubKeyECDSA.rawEncode`: `bytes(x)||bytes(y)`, each coordinate
left-zero-padded to `Plen`; an oversized coordinate would make the Go copy
target panic on a negative index. -/
def PubKeyECDSA.rawEncode (pk : PubKeyECDSA) : Outcome (List Byte) :=
  let xBytes := natBytes pk.goPubKey.x
  let yBytes := natBytes pk.goPubKey.y
  let pl := bitsToBytes (bitLen pk.alg.curve.p)
  if xBytes.length ≤ pl ∧ yBytes.length ≤ 2 * pl then
    .ok (copyInto (copyInto (List.replicate (2 * pl) 0) (pl - xBytes.length) xBytes)
      (2 * pl - yBytes.length) yBytes)
  else .panic

/-- `PubKeyECDSA.Encode` forwards to `rawEncode`. -/
def PubKeyECDSA.Encode (pk : PubKeyECDSA) : Outcome (List Byte) :=
  pk.rawEncode

/-- `PubKeyECDSA.Equals`: same curve and equal coordinates. -/
def PubKeyECDSA.Equals (pk other : PubKeyECDSA) : Bool :=
  if pk.alg.curve = other.alg.curve then
    decide (pk.goPubKey.x = other.goPubKey.x) &&
      decide (pk.goPubKey.y = other.goPubKey.y)
  else false

/-- Stated from the spec's words: whether `(x, y)` satisfies the curve
equation `y^2 = x^3 + a*x + b` over the field prime. The decoder is compared
against this validation, which the spec asks a reimplementation to add. -/
def onCurve (c : Curve) (x y : Nat) : Bool :=
  decide ((y * y) % c.p = (x * x * x + c.a * x + c.b) % c.p)

/-- A trivial hasher used to instantiate theorems at concrete inputs. -/
def idHasher : Hasher where
  computeHash := fun d => d

/-- The public key decoded from `2 * Plen` zero bytes on P-256. -/
def pkZero : PubKeyECDSA where
  alg := p256Instance
  goPubKey := { curve := p256Curve, x := 0, y := 0 }

theorem bytesToNat_foldl_from (bs : List Byte) (a : Nat) :
    bs.foldl (fun acc b => acc * 256 + b.val) a =
      a * 256 ^ bs.length + bytesToNat bs := by
  induction bs generalizing a with
  | nil => simp [bytesToNat]
  | cons b bs ih =>
    simp only [List.foldl_cons, bytesToNat, List.length_cons]
    rw [ih (a * 256 + b.val), ih (0 * 256 + b.val)]
    ring

theorem bytesToNat_append (xs ys : List Byte) :
    bytesToNat (xs ++ ys) = bytesToNat xs * 256 ^ ys.length + bytesToNat ys := by
  unfold bytesToNat
  rw [List.foldl_append, bytesToNat_foldl_from]
  rfl

theorem bytesToNat_replicate_zero (k : Nat) :
    bytesToNat (List.replicate k (0 : Byte)) = 0 := by
  induction k with
  | zero => rfl
  | succ k ih =>
    rw [List.replicate_succ, show (0 : Byte) :: List.replicate k 0 =
      [(0 : Byte)] ++ List.replicate k 0 from rfl, bytesToNat_append, ih]
    have h0 : bytesToNat [(0 : Byte)] = 0 := by decide
    rw [h0]
    simp

theorem bytesToNat_replicate_zero_append (k : Nat) (bs : List Byte) :
    bytesToNat (List.replicate k (0 : Byte) ++ bs) = bytesToNat bs := by
  rw [bytesToNat_append, bytesToNat_replicate_zero]
  simp

theorem bytesToNat_lt (bs : List Byte) : bytesToNat bs < 256 ^ bs.length := by
  induction bs with
  | nil => decide
  | cons b bs ih =>
    have hb : b.val < 256 := b.isLt
    have : bytesToNat (b :: bs) = b.val * 256 ^ bs.length + bytesToNat bs := by
      rw [show (b :: bs) = [b] ++ bs from rfl, bytesToNat_append]
      simp [bytesToNat]
    rw [this, List.length_cons, pow_succ]
    calc b.val * 256 ^ bs.length + bytesToNat bs
        < b.val * 256 ^ bs.length + 256 ^ bs.length := by omega
      _ = (b.val + 1) * 256 ^ bs.length := by ring
      _ ≤ 256 ^ bs.length * 256 := by
          rw [Nat.mul_comm (256 ^ bs.length) 256]
          exact Nat.mul_le_mul_right _ (by omega)

theorem natBytesAux_roundtrip (fuel : Nat) :
    ∀ n, n ≤ fuel → bytesToNat (natBytesAux fuel n) = n := by
  induction fuel with
  | zero =>
    intro n hn
    interval_cases n
    rfl
  | succ fuel ih =>
    intro n hn
    by_cases h0 : n = 0
    · subst h0; rfl
    · have hdiv : n / 256 ≤ fuel := by
        have : n / 256 < n := Nat.div_lt_self (Nat.pos_of_ne_zero h0) (by omega)
        omega
      simp only [natBytesAux, if_neg h0]
      rw [bytesToNat_append, ih _ hdiv]
      have : bytesToNat [(⟨n % 256, Nat.mod_lt _ (by decide)⟩ : Byte)] = n % 256 := by
        simp [bytesToNat]
      rw [this]
      simp only [List.length_singleton, pow_one]
      omega

theorem bytesToNat_natBytes (n : Nat) : bytesToNat (natBytes n) = n :=
  natBytesAux_roundtrip n n le_rfl

theorem natBytesAux_length (fuel : Nat) :
    ∀ n k, n < 256 ^ k → (natBytesAux fuel n).length ≤ k := by
  induction fuel with
  | zero => intro n k _; simp [natBytesAux]
  | succ fuel ih =>
    intro n k hk
    by_cases h0 : n = 0
    · subst h0; simp [natBytesAux]
    · have hkpos : 0 < k := by
        rcases Nat.eq_zero_or_pos k with h | h
        · subst h; simp at hk; omega
        · exact h
      simp only [natBytesAux, if_neg h0, List.length_append, List.length_singleton]
      have hdiv : n / 256 < 256 ^ (k - 1) := by
        rw [Nat.div_lt_iff_lt_mul (by omega)]
        calc n < 256 ^ k := hk
          _ = 256 ^ (k - 1) * 256 := by
              rw [← pow_succ]
              congr 1
              omega
      have := ih (n / 256) (k - 1) hdiv
      omega

theorem natBytes_length_le (n k : Nat) (h : n < 256 ^ k) :
    (natBytes n).length ≤ k :=
  natBytesAux_length n n k h

theorem copyInto_length (dst : List Byte) (off : Nat) (src : List Byte)
    (h : off + src.length ≤ dst.length) :
    (copyInto dst off src).length = dst.length := by
  simp only [copyInto, List.length_append, List.length_take, List.length_drop]
  omega

theorem copyInto_pad (m l : Nat) (src : List Byte) (hsrc : src.length = l)
    (hl : l ≤ m) :
    copyInto (List.replicate m (0 : Byte)) (m - l) src =
      List.replicate (m - l) (0 : Byte) ++ src := by
  simp only [copyInto, List.length_replicate]
  rw [List.take_replicate, List.drop_replicate]
  have h1 : min (m - l) m = m - l := by omega
  have h2 : m - (m - l) = l := by omega
  have h3 : m - (m - l + src.length) = 0 := by omega
  rw [h1, h2, h3, ← hsrc, List.take_length]
  simp

/-- Coordinate bound predicate for points: the point at infinity is bounded,
a finite point is bounded when both coordinates are. -/
def coordsBounded (bound : Nat) : Point → Prop
  | none => True
  | some (x, y) => x < bound ∧ y < bound

theorem toNat_emod_lt (z : Int) (p : Nat) (hp : 0 < p) :
    (z % (p : Int)).toNat < p := by
  have h1 : 0 ≤ z % (p : Int) := Int.emod_nonneg z (by exact_mod_cast Nat.pos_iff_ne_zero.mp hp)
  have h2 : z % (p : Int) < (p : Int) := Int.emod_lt_of_pos z (by exact_mod_cast hp)
  omega

theorem pointDouble_bounded (c : Curve) (hp : 0 < c.p) (P : Point) :
    coordsBounded c.p (pointDouble c P) := by
  match P with
  | none => trivial
  | some (x, y) =>
    simp only [pointDouble]
    split
    · trivial
    · exact ⟨toNat_emod_lt _ _ hp, toNat_emod_lt _ _ hp⟩

theorem pointAdd_bounded (c : Curve) (hp : 0 < c.p) (P Q : Point)
    (hP : coordsBounded c.p P) (hQ : coordsBounded c.p Q) :
    coordsBounded c.p (pointAdd c P Q) := by
  match P, Q with
  | none, none => exact hQ
  | none, some (x2, y2) => exact hQ
  | some (x1, y1), none => exact hP
  | some (x1, y1), some (x2, y2) =>
    simp only [pointAdd]
    split
    · split
      · trivial
      · exact pointDouble_bounded c hp _
    · exact ⟨toNat_emod_lt _ _ hp, toNat_emod_lt _ _ hp⟩

theorem scalarMultAux_bounded (c : Curve) (hp : 0 < c.p) (fuel : Nat) :
    ∀ k P, coordsBounded c.p P → coordsBounded c.p (scalarMultAux c fuel k P) := by
  induction fuel with
  | zero => intro k P _; trivial
  | succ fuel ih =>
    intro k P hP
    simp only [scalarMultAux]
    split
    · trivial
    · split
      · exact pointAdd_bounded c hp _ _ hP (ih _ _ (pointDouble_bounded c hp P))
      · exact ih _ _ (pointDouble_bounded c hp P)

theorem scalarBaseMult_bounded (c : Curve) (hp : 0 < c.p) (hgx : c.gx < c.p)
    (hgy : c.gy < c.p) (bs : List Byte) :
    (scalarBaseMult c bs).1 < c.p ∧ (scalarBaseMult c bs).2 < c.p := by
  have h := scalarMultAux_bounded c hp (bytesToNat bs + 1) (bytesToNat bs)
    (some (c.gx, c.gy)) ⟨hgx, hgy⟩
  simp only [scalarBaseMult, scalarMult]
  match hm : scalarMultAux c (bytesToNat bs + 1) (bytesToNat bs) (some (c.gx, c.gy)) with
  | none => exact ⟨hp, hp⟩
  | some (x, y) =>
    rw [hm] at h
    exact h

theorem scalarBaseMult_natBytes (c : Curve) (k : Nat) :
    scalarBaseMult c (natBytes k) =
      pointToAffine (scalarMult c k (some (c.gx, c.gy))) := by
  unfold scalarBaseMult
  rw [bytesToNat_natBytes]

theorem generate_ok_inv (a : EcdsaAlgo) (seed : List Byte) (sk : PrKeyECDSA)
    (h : a.generatePrivateKey seed = .ok sk) :
    sk = { alg := a, goPrKey := goecdsaGenerateKey a.curve seed } := by
  simp only [EcdsaAlgo.generatePrivateKey] at h
  split at h
  · exact Outcome.noConfusion h
  · exact (Outcome.ok.inj h).symm

theorem rawDecodePrivateKey_ok_inv (a : EcdsaAlgo) (der : List Byte)
    (sk : PrKeyECDSA) (h : a.rawDecodePrivateKey der = .ok sk) :
    der.length = bitsToBytes (bitLen a.curve.n) ∧
    sk = { alg := a,
           goPrKey := { pub := { curve := a.curve, x := (scalarBaseMult a.curve der).1,
                                 y := (scalarBaseMult a.curve der).2 },
                        d := bytesToNat der } } := by
  simp only [EcdsaAlgo.rawDecodePrivateKey] at h
  split at h
  · exact Outcome.noConfusion h
  · next hcond =>
    refine ⟨by omega, (Outcome.ok.inj h).symm⟩

theorem rawDecodePublicKey_ok_inv (a : EcdsaAlgo) (der : List Byte)
    (pk : PubKeyECDSA) (h : a.rawDecodePublicKey der = .ok pk) :
    der.length = 2 * bitsToBytes (bitLen a.curve.p) ∧
    pk = { alg := a,
           goPubKey := { curve := a.curve,
                         x := bytesToNat (der.take (bitsToBytes (bitLen a.curve.p))),
                         y := bytesToNat (der.drop (bitsToBytes (bitLen a.curve.p))) } } := by
  simp only [EcdsaAlgo.rawDecodePublicKey] at h
  split at h
  · exact Outcome.noConfusion h
  · next hcond =>
    refine ⟨by omega, (Outcome.ok.inj h).symm⟩

theorem p256_curve_facts :
    2 ≤ p256Instance.curve.n ∧
    p256Instance.curve.n ≤ 256 ^ bitsToBytes (bitLen p256Instance.curve.n) ∧
    0 < p256Instance.curve.p ∧
    p256Instance.curve.p ≤ 256 ^ bitsToBytes (bitLen p256Instance.curve.p) ∧
    p256Instance.curve.gx < p256Instance.curve.p ∧
    p256Instance.curve.gy < p256Instance.curve.p := by
  decide

theorem secp256k1_curve_facts :
    2 ≤ secp256k1Instance.curve.n ∧
    secp256k1Instance.curve.n ≤ 256 ^ bitsToBytes (bitLen secp256k1Instance.curve.n) ∧
    0 < secp256k1Instance.curve.p ∧
    secp256k1Instance.curve.p ≤ 256 ^ bitsToBytes (bitLen secp256k1Instance.curve.p) ∧
    secp256k1Instance.curve.gx < secp256k1Instance.curve.p ∧
    secp256k1Instance.curve.gy < secp256k1Instance.curve.p := by
  decide

theorem generateKey_core (a : EcdsaAlgo) (seed : List Byte)
    (hn2 : 2 ≤ a.curve.n)
    (hlen : bitsToBytes (bitLen a.curve.n) + 16 ≤ seed.length) :
    ∃ sk, a.generatePrivateKey seed = .ok sk ∧
      sk.alg = a ∧
      sk.goPrKey.d = bytesToNat seed % (a.curve.n - 1) + 1 ∧
      1 ≤ sk.goPrKey.d ∧ sk.goPrKey.d ≤ a.curve.n - 1 ∧
      sk.goPrKey.pub.curve = a.curve ∧
      (sk.goPrKey.pub.x, sk.goPrKey.pub.y) =
        pointToAffine (scalarMult a.curve sk.goPrKey.d
          (some (a.curve.gx, a.curve.gy))) := by
  have h16 : securityBits / 8 = 16 := rfl
  have hmod : bytesToNat seed % (a.curve.n - 1) < a.curve.n - 1 :=
    Nat.mod_lt _ (by omega)
  refine ⟨{ alg := a, goPrKey := goecdsaGenerateKey a.curve seed }, ?_, rfl, rfl,
    ?_, ?_, rfl, ?_⟩
  · simp only [EcdsaAlgo.generatePrivateKey]
    rw [if_neg (by omega)]
  · show 1 ≤ bytesToNat seed % (a.curve.n - 1) + 1
    omega
  · show bytesToNat seed % (a.curve.n - 1) + 1 ≤ a.curve.n - 1
    omega
  · show scalarBaseMult a.curve (natBytes (bytesToNat seed % (a.curve.n - 1) + 1)) =
      pointToAffine (scalarMult a.curve (bytesToNat seed % (a.curve.n - 1) + 1)
        (some (a.curve.gx, a.curve.gy)))
    exact scalarBaseMult_natBytes _ _

/-- Claim C1: for every algorithm and every seed of length at least
`Nlen + 16`, `generatePrivateKey` interprets the seed as a big-endian
integer `k`, sets the scalar to `d = (k mod (n-1)) + 1`, which lies in
`[1, n-1]`, and sets the public point to `d` times the generator. -/
theorem generatePrivateKey_reduces_seed_mod_order (a : EcdsaAlgo)
    (ha : a = p256Instance ∨ a = secp256k1Instance) (seed : List Byte)
    (hlen : bitsToBytes (bitLen a.curve.n) + 16 ≤ seed.length) :
    ∃ sk, a.generatePrivateKey seed = .ok sk ∧
      sk.alg = a ∧
      sk.goPrKey.d = bytesToNat seed % (a.curve.n - 1) + 1 ∧
      1 ≤ sk.goPrKey.d ∧ sk.goPrKey.d ≤ a.curve.n - 1 ∧
      sk.goPrKey.pub.curve = a.curve ∧
      (sk.goPrKey.pub.x, sk.goPrKey.pub.y) =
        pointToAffine (scalarMult a.curve sk.goPrKey.d
          (some (a.curve.gx, a.curve.gy))) := by
  refine generateKey_core a seed ?_ hlen
  rcases ha with rfl | rfl
  · exact p256_curve_facts.1
  · exact secp256k1_curve_facts.1

/-- Witness for claim C1 at the 48-byte all-zero seed on P-256. -/
theorem generatePrivateKey_reduces_seed_mod_order_witness :
    (p256Instance = p256Instance ∨ p256Instance = secp256k1Instance) ∧
    bitsToBytes (bitLen p256Instance.curve.n) + 16 ≤
      (List.replicate 48 (0 : Byte)).length ∧
    (∃ sk, p256Instance.generatePrivateKey (List.replicate 48 0) = .ok sk ∧
      sk.alg = p256Instance ∧
      sk.goPrKey.d =
        bytesToNat (List.replicate 48 0) % (p256Instance.curve.n - 1) + 1 ∧
      1 ≤ sk.goPrKey.d ∧ sk.goPrKey.d ≤ p256Instance.curve.n - 1 ∧
      sk.goPrKey.pub.curve = p256Instance.curve ∧
      (sk.goPrKey.pub.x, sk.goPrKey.pub.y) =
        pointToAffine (scalarMult p256Instance.curve sk.goPrKey.d
          (some (p256Instance.curve.gx, p256Instance.curve.gy)))) :=
  ⟨Or.inl rfl, by decide,
    generatePrivateKey_reduces_seed_mod_order p256Instance (Or.inl rfl)
      (List.replicate 48 0) (by decide)⟩

/-- Claim C7: for every algorithm, `generatePrivateKey` fails with the
insufficient-seed-length error exactly when the seed is shorter than
`Nlen + 16` bytes, and succeeds on every seed of at least that length. -/
theorem generatePrivateKey_rejects_short_seeds (a : EcdsaAlgo)
    (seed : List Byte) :
    (seed.length < bitsToBytes (bitLen a.curve.n) + 16 →
      a.generatePrivateKey seed =
        .err (.insufficientSeedLength (bitsToBytes (bitLen a.curve.n) + 16))) ∧
    (bitsToBytes (bitLen a.curve.n) + 16 ≤ seed.length →
      ∃ sk, a.generatePrivateKey seed = .ok sk) := by
  have h16 : securityBits / 8 = 16 := rfl
  constructor
  · intro h
    simp only [EcdsaAlgo.generatePrivateKey]
    rw [if_pos (by omega), h16]
  · intro h
    refine ⟨{ alg := a, goPrKey := goecdsaGenerateKey a.curve seed }, ?_⟩
    simp only [EcdsaAlgo.generatePrivateKey]
    rw [if_neg (by omega)]

/-- Witness for claim C7: a seed of length `Nlen` (32 bytes on P-256) is
rejected, a seed of length `Nlen + 16` is accepted. -/
theorem generatePrivateKey_rejects_short_seeds_witness :
    (List.replicate 32 (0 : Byte)).length <
      bitsToBytes (bitLen p256Instance.curve.n) + 16 ∧
    p256Instance.generatePrivateKey (List.replicate 32 0) =
      .err (.insufficientSeedLength
        (bitsToBytes (bitLen p256Instance.curve.n) + 16)) ∧
    bitsToBytes (bitLen p256Instance.curve.n) + 16 ≤
      (List.replicate 48 (0 : Byte)).length ∧
    (∃ sk, p256Instance.generatePrivateKey (List.replicate 48 0) = .ok sk) :=
  ⟨by decide,
    (generatePrivateKey_rejects_short_seeds p256Instance
      (List.replicate 32 0)).1 (by decide),
    by decide,
    (generatePrivateKey_rejects_short_seeds p256Instance
      (List.replicate 48 0)).2 (by decide)⟩

/-- Claim C8: `generatePrivateKey` is deterministic: identical algorithm and
identical seed bytes give bit-identical outcomes, in particular the same
scalar and the same public point. -/
theorem generatePrivateKey_deterministic (a : EcdsaAlgo) (s1 s2 : List Byte)
    (h : s1 = s2) :
    a.generatePrivateKey s1 = a.generatePrivateKey s2 ∧
    ∀ sk1 sk2, a.generatePrivateKey s1 = .ok sk1 →
      a.generatePrivateKey s2 = .ok sk2 →
      sk1.goPrKey.d = sk2.goPrKey.d ∧ sk1.goPrKey.pub = sk2.goPrKey.pub := by
  subst h
  refine ⟨rfl, ?_⟩
  intro sk1 sk2 h1 h2
  rw [h1] at h2
  cases Outcome.ok.inj h2
  exact ⟨rfl, rfl⟩

/-- Witness for claim C8 at two identical 48-byte seeds on P-256. -/
theorem generatePrivateKey_deterministic_witness :
    List.replicate 48 (1 : Byte) = List.replicate 48 (1 : Byte) ∧
    (p256Instance.generatePrivateKey (List.replicate 48 1) =
        p256Instance.generatePrivateKey (List.replicate 48 1) ∧
      ∀ sk1 sk2,
        p256Instance.generatePrivateKey (List.replicate 48 1) = .ok sk1 →
        p256Instance.generatePrivateKey (List.replicate 48 1) = .ok sk2 →
        sk1.goPrKey.d = sk2.goPrKey.d ∧ sk1.goPrKey.pub = sk2.goPrKey.pub) :=
  ⟨rfl, generatePrivateKey_deterministic p256Instance
    (List.replicate 48 1) (List.replicate 48 1) rfl⟩

/-- Claim C9: `Sign` with a nil hasher fails with the missing-hasher error
and produces no signature; `Verify` with a nil hasher fails with the
missing-hasher error and produces no boolean verdict. -/
theorem sign_verify_require_hasher (sk : PrKeyECDSA) (pk : PubKeyECDSA)
    (data sig : List Byte) (nonce : Nat) :
    sk.Sign data none nonce = .err .signRequiresHasher ∧
    pk.Verify sig data none = .err .verifyRequiresHasher :=
  ⟨rfl, rfl⟩

theorem encode_decode_core (sk : PrKeyECDSA)
    (hd : sk.goPrKey.d < 256 ^ bitsToBytes (bitLen sk.alg.curve.n)) :
    ∃ enc sk2, sk.Encode = .ok enc ∧ sk.alg.decodePrivateKey enc = .ok sk2 ∧
      sk2.Equals sk = true := by
  have hlenB : (natBytes sk.goPrKey.d).length ≤
      bitsToBytes (bitLen sk.alg.curve.n) := natBytes_length_le _ _ hd
  have henc : sk.Encode = .ok (copyInto
      (List.replicate (bitsToBytes (bitLen sk.alg.curve.n)) 0)
      (bitsToBytes (bitLen sk.alg.curve.n) - (natBytes sk.goPrKey.d).length)
      (natBytes sk.goPrKey.d)) := by
    simp only [PrKeyECDSA.Encode, PrKeyECDSA.rawEncode]
    rw [if_pos hlenB]
  have hencval : copyInto
      (List.replicate (bitsToBytes (bitLen sk.alg.curve.n)) 0)
      (bitsToBytes (bitLen sk.alg.curve.n) - (natBytes sk.goPrKey.d).length)
      (natBytes sk.goPrKey.d) =
      List.replicate (bitsToBytes (bitLen sk.alg.curve.n) -
        (natBytes sk.goPrKey.d).length) 0 ++ natBytes sk.goPrKey.d :=
    copyInto_pad _ _ _ rfl hlenB
  have helen : (List.replicate (bitsToBytes (bitLen sk.alg.curve.n) -
      (natBytes sk.goPrKey.d).length) (0 : Byte) ++
      natBytes sk.goPrKey.d).length = bitsToBytes (bitLen sk.alg.curve.n) := by
    simp only [List.length_append, List.length_replicate]
    omega
  have hval : bytesToNat (List.replicate (bitsToBytes (bitLen sk.alg.curve.n) -
      (natBytes sk.goPrKey.d).length) 0 ++ natBytes sk.goPrKey.d) =
      sk.goPrKey.d := by
    rw [bytesToNat_replicate_zero_append, bytesToNat_natBytes]
  refine ⟨List.replicate (bitsToBytes (bitLen sk.alg.curve.n) -
      (natBytes sk.goPrKey.d).length) 0 ++ natBytes sk.goPrKey.d,
    { alg := sk.alg,
      goPrKey := { pub := { curve := sk.alg.curve,
                            x := (scalarBaseMult sk.alg.curve
                              (List.replicate (bitsToBytes (bitLen sk.alg.curve.n) -
                                (natBytes sk.goPrKey.d).length) 0 ++
                                natBytes sk.goPrKey.d)).1,
                            y := (scalarBaseMult sk.alg.curve
                              (List.replicate (bitsToBytes (bitLen sk.alg.curve.n) -
                                (natBytes sk.goPrKey.d).length) 0 ++
                                natBytes sk.goPrKey.d)).2 },
                   d := bytesToNat (List.replicate (bitsToBytes (bitLen sk.alg.curve.n) -
                     (natBytes sk.goPrKey.d).length) 0 ++ natBytes sk.goPrKey.d) } },
    henc.trans (congrArg Outcome.ok hencval), ?_, ?_⟩
  case _ =>
    simp only [EcdsaAlgo.decodePrivateKey, EcdsaAlgo.rawDecodePrivateKey]
    rw [if_neg (by simp [helen])]
  case _ =>
    simp only [PrKeyECDSA.Equals]
    simp [hval]

/-- Claim C4: for every valid seed, decoding the raw encoding of the
generated private key yields a key `Equals`-equal to the generated key. -/
theorem private_key_encode_decode_roundtrip (a : EcdsaAlgo)
    (ha : a = p256Instance ∨ a = secp256k1Instance) (seed : List Byte)
    (hlen : bitsToBytes (bitLen a.curve.n) + 16 ≤ seed.length) :
    ∃ sk enc sk2, a.generatePrivateKey seed = .ok sk ∧ sk.Encode = .ok enc ∧
      a.decodePrivateKey enc = .ok sk2 ∧ sk2.Equals sk = true := by
  have hn2 : 2 ≤ a.curve.n := by
    rcases ha with rfl | rfl
    · exact p256_curve_facts.1
    · exact secp256k1_curve_facts.1
  have hnle : a.curve.n ≤ 256 ^ bitsToBytes (bitLen a.curve.n) := by
    rcases ha with rfl | rfl
    · exact p256_curve_facts.2.1
    · exact secp256k1_curve_facts.2.1
  obtain ⟨sk, hok, halg, _, _, hle, _, _⟩ := generateKey_core a seed hn2 hlen
  have hdlt : sk.goPrKey.d < 256 ^ bitsToBytes (bitLen sk.alg.curve.n) := by
    rw [halg]
    omega
  obtain ⟨enc, sk2, henc, hdec, heq⟩ := encode_decode_core sk hdlt
  rw [halg] at hdec
  exact ⟨sk, enc, sk2, hok, henc, hdec, heq⟩

/-- Witness for claim C4 at the 48-byte all-one seed on P-256. -/
theorem private_key_encode_decode_roundtrip_witness :
    (p256Instance = p256Instance ∨ p256Instance = secp256k1Instance) ∧
    bitsToBytes (bitLen p256Instance.curve.n) + 16 ≤
      (List.replicate 48 (1 : Byte)).length ∧
    (∃ sk enc sk2,
      p256Instance.generatePrivateKey (List.replicate 48 1) = .ok sk ∧
      sk.Encode = .ok enc ∧ p256Instance.decodePrivateKey enc = .ok sk2 ∧
      sk2.Equals sk = true) :=
  ⟨Or.inl rfl, by decide,
    private_key_encode_decode_roundtrip p256Instance (Or.inl rfl)
      (List.replicate 48 1) (by decide)⟩

/-- Claim C5: for a well-lengthed signature (exactly `2 * Nlen` bytes) whose
decoded half `r` or `s` is zero or at least the curve order, `Verify` with a
non-null hasher returns the boolean `false` and raises no error. -/
theorem verify_out_of_range_halves_false (pk : PubKeyECDSA)
    (hc : pk.goPubKey.curve = pk.alg.curve) (hasher : Hasher)
    (data sig : List Byte)
    (hlen : sig.length = 2 * bitsToBytes (bitLen pk.alg.curve.n))
    (hoor : bytesToNat (sig.take (bitsToBytes (bitLen pk.alg.curve.n))) = 0 ∨
      pk.alg.curve.n ≤ bytesToNat (sig.take (bitsToBytes (bitLen pk.alg.curve.n))) ∨
      bytesToNat (sig.drop (bitsToBytes (bitLen pk.alg.curve.n))) = 0 ∨
      pk.alg.curve.n ≤ bytesToNat (sig.drop (bitsToBytes (bitLen pk.alg.curve.n)))) :
    pk.Verify sig data (some hasher) = .ok false := by
  simp only [PubKeyECDSA.Verify, PubKeyECDSA.verifyHash]
  rw [if_neg (by omega)]
  simp only [goecdsaVerify, hc]
  rw [if_pos (by tauto)]

/-- Witness for claim C5: the all-zero 64-byte signature on P-256 decodes to
`r = s = 0` and verifies to `false` without error. -/
theorem verify_out_of_range_halves_false_witness :
    pkZero.goPubKey.curve = pkZero.alg.curve ∧
    (List.replicate 64 (0 : Byte)).length =
      2 * bitsToBytes (bitLen pkZero.alg.curve.n) ∧
    (bytesToNat ((List.replicate 64 (0 : Byte)).take
        (bitsToBytes (bitLen pkZero.alg.curve.n))) = 0 ∨
      pkZero.alg.curve.n ≤ bytesToNat ((List.replicate 64 (0 : Byte)).take
        (bitsToBytes (bitLen pkZero.alg.curve.n))) ∨
      bytesToNat ((List.replicate 64 (0 : Byte)).drop
        (bitsToBytes (bitLen pkZero.alg.curve.n))) = 0 ∨
      pkZero.alg.curve.n ≤ bytesToNat ((List.replicate 64 (0 : Byte)).drop
        (bitsToBytes (bitLen pkZero.alg.curve.n)))) ∧
    pkZero.Verify (List.replicate 64 0) [] (some idHasher) = .ok false :=
  ⟨rfl, by decide, by decide,
    verify_out_of_range_halves_false pkZero rfl idHasher []
      (List.replicate 64 0) (by decide) (by decide)⟩

/-- Counterexample to claim C3: a 65-byte signature does not have the
well-formed length `2 * Nlen = 64` on P-256, yet `Verify` returns the
normal boolean result `false` instead of failing with an encoding error. -/
theorem verify_returns_bool_on_bad_length :
    (List.replicate 65 (0 : Byte)).length ≠
      2 * bitsToBytes (bitLen pkZero.alg.curve.n) ∧
    pkZero.Verify (List.replicate 65 0) [] (some idHasher) = .ok false := by
  decide

/-- Claim C3 amended: `Verify` performs no signature-length validation: with
a non-null hasher, any signature of length at least `Nlen` produces a normal
boolean result (never an encoding error), and any shorter signature makes
the slice expression `sig[:Nlen]` panic. -/
theorem verify_has_no_signature_length_check (pk : PubKeyECDSA)
    (hasher : Hasher) (data sig : List Byte) :
    (sig.length < bitsToBytes (bitLen pk.alg.curve.n) →
      pk.Verify sig data (some hasher) = .panic) ∧
    (bitsToBytes (bitLen pk.alg.curve.n) ≤ sig.length →
      pk.Verify sig data (some hasher) =
        .ok (goecdsaVerify pk.goPubKey (hasher.computeHash data)
          (bytesToNat (sig.take (bitsToBytes (bitLen pk.alg.curve.n))))
          (bytesToNat (sig.drop (bitsToBytes (bitLen pk.alg.curve.n)))))) := by
  constructor
  · intro h
    simp only [PubKeyECDSA.Verify, PubKeyECDSA.verifyHash]
    rw [if_pos h]
  · intro h
    simp only [PubKeyECDSA.Verify, PubKeyECDSA.verifyHash]
    rw [if_neg (by omega)]

/-- Witness for the amended claim C3: a 31-byte signature on P-256 panics
inside `verifyHash` instead of surfacing an encoding error. -/
theorem verify_has_no_signature_length_check_witness :
    (List.replicate 31 (0 : Byte)).length <
      bitsToBytes (bitLen pkZero.alg.curve.n) ∧
    pkZero.Verify (List.replicate 31 0) [] (some idHasher) = .panic :=
  ⟨by decide,
    (verify_has_no_signature_length_check pkZero idHasher []
      (List.replicate 31 0)).1 (by decide)⟩

/-- Counterexample to claim C2: the 64-byte all-zero buffer decodes to the
point `(0, 0)`, which is not on the P-256 curve (and is the representation
of the point at infinity), yet `decodePublicKey` succeeds. -/
theorem decodePublicKey_accepts_off_curve_point :
    onCurve p256Curve 0 0 = false ∧
    p256Instance.decodePublicKey (List.replicate 64 0) =
      .ok { alg := p256Instance,
            goPubKey := { curve := p256Curve, x := 0, y := 0 } } := by
  decide

/-- Claim C2 amended: `decodePublicKey` fails with the invalid-encoding
error exactly when the buffer is not `2 * Plen` bytes, and on any buffer of
exactly `2 * Plen` bytes it succeeds with the raw decoded coordinates,
performing no on-curve or point-at-infinity validation. -/
theorem decodePublicKey_checks_only_length (a : EcdsaAlgo) (der : List Byte) :
    (der.length ≠ 2 * bitsToBytes (bitLen a.curve.p) →
      a.decodePublicKey der = .err .invalidRawPublicKey) ∧
    (der.length = 2 * bitsToBytes (bitLen a.curve.p) →
      a.decodePublicKey der =
        .ok { alg := a,
              goPubKey := { curve := a.curve,
                            x := bytesToNat (der.take (bitsToBytes (bitLen a.curve.p))),
                            y := bytesToNat (der.drop (bitsToBytes (bitLen a.curve.p))) } }) := by
  constructor
  · intro h
    simp only [EcdsaAlgo.decodePublicKey, EcdsaAlgo.rawDecodePublicKey]
    rw [if_pos h]
  · intro h
    simp only [EcdsaAlgo.decodePublicKey, EcdsaAlgo.rawDecodePublicKey]
    rw [if_neg (by omega)]

/-- Witness for the amended claim C2: a 63-byte buffer is rejected with the
invalid-encoding error on P-256. -/
theorem decodePublicKey_checks_only_length_witness :
    (List.replicate 63 (0 : Byte)).length ≠
      2 * bitsToBytes (bitLen p256Instance.curve.p) ∧
    p256Instance.decodePublicKey (List.replicate 63 0) =
      .err .invalidRawPublicKey :=
  ⟨by decide,
    (decodePublicKey_checks_only_length p256Instance
      (List.replicate 63 0)).1 (by decide)⟩

/-- Counterexample to claim C6: the 32-byte all-zero buffer encodes the
out-of-range scalar `d = 0`, yet `decodePrivateKey` does not reject it and
returns a key with that scalar. -/
theorem decodePrivateKey_accepts_zero_scalar :
    bytesToNat (List.replicate 32 (0 : Byte)) = 0 ∧
    p256Instance.decodePrivateKey (List.replicate 32 0) =
      .ok { alg := p256Instance,
            goPrKey := { pub := { curve := p256Curve, x := 0, y := 0 },
                         d := 0 } } := by
  decide

/-- Claim C6 amended: `decodePrivateKey` performs no range check on the
scalar: every buffer of exactly `Nlen` bytes decodes successfully to a key
whose scalar is the big-endian value of the buffer, even when that value is
zero or at least the curve order. -/
theorem decodePrivateKey_has_no_range_check (a : EcdsaAlgo) (der : List Byte)
    (hlen : der.length = bitsToBytes (bitLen a.curve.n))
    (_hoor : bytesToNat der = 0 ∨ a.curve.n ≤ bytesToNat der) :
    ∃ sk, a.decodePrivateKey der = .ok sk ∧ sk.goPrKey.d = bytesToNat der := by
  refine ⟨{ alg := a,
            goPrKey := { pub := { curve := a.curve,
                                  x := (scalarBaseMult a.curve der).1,
                                  y := (scalarBaseMult a.curve der).2 },
                         d := bytesToNat der } }, ?_, rfl⟩
  simp only [EcdsaAlgo.decodePrivateKey, EcdsaAlgo.rawDecodePrivateKey]
  rw [if_neg (by omega)]

theorem prv_encode_ok (sk : PrKeyECDSA)
    (hd : sk.goPrKey.d < 256 ^ bitsToBytes (bitLen sk.alg.curve.n)) :
    ∃ l, sk.Encode = .ok l ∧ l.length = sk.Size := by
  have hlenB : (natBytes sk.goPrKey.d).length ≤
      bitsToBytes (bitLen sk.alg.curve.n) := natBytes_length_le _ _ hd
  refine ⟨copyInto (List.replicate (bitsToBytes (bitLen sk.alg.curve.n)) 0)
    (bitsToBytes (bitLen sk.alg.curve.n) - (natBytes sk.goPrKey.d).length)
    (natBytes sk.goPrKey.d), ?_, ?_⟩
  · simp only [PrKeyECDSA.Encode, PrKeyECDSA.rawEncode]
    rw [if_pos hlenB]
  · rw [copyInto_length]
    · simp [PrKeyECDSA.Size]
    · simp only [List.length_replicate]
      omega

theorem pub_encode_ok (pk : PubKeyECDSA)
    (hc : pk.goPubKey.curve = pk.alg.curve)
    (hx : pk.goPubKey.x < 256 ^ bitsToBytes (bitLen pk.alg.curve.p))
    (hy : pk.goPubKey.y < 256 ^ bitsToBytes (bitLen pk.alg.curve.p)) :
    ∃ l, pk.Encode = .ok l ∧ l.length = pk.Size := by
  have hxl : (natBytes pk.goPubKey.x).length ≤
      bitsToBytes (bitLen pk.alg.curve.p) := natBytes_length_le _ _ hx
  have hyl : (natBytes pk.goPubKey.y).length ≤
      bitsToBytes (bitLen pk.alg.curve.p) := natBytes_length_le _ _ hy
  have hinner : (copyInto
      (List.replicate (2 * bitsToBytes (bitLen pk.alg.curve.p)) 0)
      (bitsToBytes (bitLen pk.alg.curve.p) - (natBytes pk.goPubKey.x).length)
      (natBytes pk.goPubKey.x)).length =
      2 * bitsToBytes (bitLen pk.alg.curve.p) := by
    rw [copyInto_length]
    · simp
    · simp only [List.length_replicate]
      omega
  refine ⟨copyInto (copyInto
    (List.replicate (2 * bitsToBytes (bitLen pk.alg.curve.p)) 0)
    (bitsToBytes (bitLen pk.alg.curve.p) - (natBytes pk.goPubKey.x).length)
    (natBytes pk.goPubKey.x))
    (2 * bitsToBytes (bitLen pk.alg.curve.p) - (natBytes pk.goPubKey.y).length)
    (natBytes pk.goPubKey.y), ?_, ?_⟩
  · simp only [PubKeyECDSA.Encode, PubKeyECDSA.rawEncode]
    rw [if_pos ⟨hxl, by omega⟩]
  · rw [copyInto_length]
    · rw [hinner]
      simp [PubKeyECDSA.Size, hc]
    · rw [hinner]
      omega

/-- Witness for the amended claim C6 at the 32-byte all-zero buffer. -/
theorem decodePrivateKey_has_no_range_check_witness :
    (List.replicate 32 (0 : Byte)).length =
      bitsToBytes (bitLen p256Instance.curve.n) ∧
    (bytesToNat (List.replicate 32 (0 : Byte)) = 0 ∨
      p256Instance.curve.n ≤ bytesToNat (List.replicate 32 (0 : Byte))) ∧
    (∃ sk, p256Instance.decodePrivateKey (List.replicate 32 0) = .ok sk ∧
      sk.goPrKey.d = bytesToNat (List.replicate 32 (0 : Byte))) :=
  ⟨by decide, by decide,
    decodePrivateKey_has_no_range_check p256Instance (List.replicate 32 0)
      (by decide) (by decide)⟩

theorem encode_size_core (a : EcdsaAlgo)
    (hn2 : 2 ≤ a.curve.n)
    (hnle : a.curve.n ≤ 256 ^ bitsToBytes (bitLen a.curve.n))
    (hppos : 0 < a.curve.p)
    (hple : a.curve.p ≤ 256 ^ bitsToBytes (bitLen a.curve.p))
    (hgx : a.curve.gx < a.curve.p) (hgy : a.curve.gy < a.curve.p) :
    (∀ seed sk, a.generatePrivateKey seed = .ok sk →
      (∃ l, sk.Encode = .ok l ∧ l.length = sk.Size) ∧
      (∃ l, sk.PublicKey.Encode = .ok l ∧ l.length = sk.PublicKey.Size)) ∧
    (∀ der sk, a.rawDecodePrivateKey der = .ok sk →
      ∃ l, sk.Encode = .ok l ∧ l.length = sk.Size) ∧
    (∀ der pk, a.rawDecodePublicKey der = .ok pk →
      ∃ l, pk.Encode = .ok l ∧ l.length = pk.Size) := by
  refine ⟨?_, ?_, ?_⟩
  · intro seed sk h
    have hsk := generate_ok_inv a seed sk h
    subst hsk
    have hmod : bytesToNat seed % (a.curve.n - 1) < a.curve.n - 1 :=
      Nat.mod_lt _ (by omega)
    constructor
    · apply prv_encode_ok
      show bytesToNat seed % (a.curve.n - 1) + 1 <
        256 ^ bitsToBytes (bitLen a.curve.n)
      omega
    · refine pub_encode_ok _ rfl ?_ ?_
      · show (scalarBaseMult a.curve
          (natBytes (bytesToNat seed % (a.curve.n - 1) + 1))).1 <
          256 ^ bitsToBytes (bitLen a.curve.p)
        exact lt_of_lt_of_le
          (scalarBaseMult_bounded a.curve hppos hgx hgy _).1 hple
      · show (scalarBaseMult a.curve
          (natBytes (bytesToNat seed % (a.curve.n - 1) + 1))).2 <
          256 ^ bitsToBytes (bitLen a.curve.p)
        exact lt_of_lt_of_le
          (scalarBaseMult_bounded a.curve hppos hgx hgy _).2 hple
  · intro der sk h
    obtain ⟨hlen, hsk⟩ := rawDecodePrivateKey_ok_inv a der sk h
    subst hsk
    apply prv_encode_ok
    show bytesToNat der < 256 ^ bitsToBytes (bitLen a.curve.n)
    have hbound := bytesToNat_lt der
    rw [hlen] at hbound
    exact hbound
  · intro der pk h
    obtain ⟨hlen, hpk⟩ := rawDecodePublicKey_ok_inv a der pk h
    subst hpk
    refine pub_encode_ok _ rfl ?_ ?_
    · show bytesToNat (der.take (bitsToBytes (bitLen a.curve.p))) <
        256 ^ bitsToBytes (bitLen a.curve.p)
      have hl : (der.take (bitsToBytes (bitLen a.curve.p))).length =
          bitsToBytes (bitLen a.curve.p) := by
        rw [List.length_take, hlen]
        omega
      have hbound := bytesToNat_lt (der.take (bitsToBytes (bitLen a.curve.p)))
      rw [hl] at hbound
      exact hbound
    · show bytesToNat (der.drop (bitsToBytes (bitLen a.curve.p))) <
        256 ^ bitsToBytes (bitLen a.curve.p)
      have hl : (der.drop (bitsToBytes (bitLen a.curve.p))).length =
          bitsToBytes (bitLen a.curve.p) := by
        rw [List.length_drop, hlen]
        omega
      have hbound := bytesToNat_lt (der.drop (bitsToBytes (bitLen a.curve.p)))
      rw [hl] at hbound
      exact hbound

/-- Claim C10: every constructed key encodes to exactly its reported size:
private keys generated from a seed or decoded from raw bytes encode to
`Size = Nlen` bytes, and their public keys, as well as decoded public keys,
encode to `Size = 2 * Plen` bytes, regardless of leading zero bytes in the
scalar or the coordinates. -/
theorem encode_length_matches_size (a : EcdsaAlgo)
    (ha : a = p256Instance ∨ a = secp256k1Instance) :
    (∀ seed sk, a.generatePrivateKey seed = .ok sk →
      (∃ l, sk.Encode = .ok l ∧ l.length = sk.Size) ∧
      (∃ l, sk.PublicKey.Encode = .ok l ∧ l.length = sk.PublicKey.Size)) ∧
    (∀ der sk, a.rawDecodePrivateKey der = .ok sk →
      ∃ l, sk.Encode = .ok l ∧ l.length = sk.Size) ∧
    (∀ der pk, a.rawDecodePublicKey der = .ok pk →
      ∃ l, pk.Encode = .ok l ∧ l.length = pk.Size) := by
  rcases ha with rfl | rfl
  · exact encode_size_core p256Instance p256_curve_facts.1
      p256_curve_facts.2.1 p256_curve_facts.2.2.1 p256_curve_facts.2.2.2.1
      p256_curve_facts.2.2.2.2.1 p256_curve_facts.2.2.2.2.2
  · exact encode_size_core secp256k1Instance secp256k1_curve_facts.1
      secp256k1_curve_facts.2.1 secp256k1_curve_facts.2.2.1
      secp256k1_curve_facts.2.2.2.1 secp256k1_curve_facts.2.2.2.2.1
      secp256k1_curve_facts.2.2.2.2.2

/-- Witness for claim C10: the public key decoded from 64 zero bytes on
P-256 (whose coordinates are all leading zeros) encodes back to exactly its
`Size` of 64 bytes. -/
theorem encode_length_matches_size_witness :
    (p256Instance = p256Instance ∨ p256Instance = secp256k1Instance) ∧
    (∃ l, pkZero.Encode = .ok l ∧ l.length = pkZero.Size) :=
  ⟨Or.inl rfl,
    (encode_length_matches_size p256Instance (Or.inl rfl)).2.2
      (List.replicate 64 0) pkZero (by decide)⟩

end FlowECDSA
